import Mathlib

/-!
Shallow embedding of the spaced-repetition engine of `src/src/lib/spacedRepetition.ts`
(an SM-2 variant over a localStorage-backed key-value store), together with proofs
of the specified properties.

Numbers in the source are JavaScript numbers used with exact decimal constants;
they are modelled as rationals (`ℚ`).  Timestamps (epoch milliseconds) are also
rationals, and `Date.now()` is passed explicitly as `now`.  `Math.round` is
modelled as `⌊x + 1/2⌋` (round half up), which is JavaScript's rounding rule.

The persisted store (`localStorage` under one key, holding a JSON document that
is a `Record<string, RepetitionData>`) is modelled by `Cell`:
`getItem` may throw (`throwing`), return `null` (`empty`), or return a string
whose parse either fails (`holding corrupt`) or yields a mapping
(`holding (good m)`).  A mapping is modelled extensionally as
`String → Option RepetitionData`.  Store-writing operations take the cell and
return the new cell; read-only operations return the read value (and, in
state-passing form, the unchanged cell).
-/

/-- `'correct' | 'incorrect'` — the non-null values of `lastResult`. -/
inductive LastResult where
  | correct
  | incorrect
deriving DecidableEq, Repr

/-- The `RepetitionData` interface: one record per question.
`lastResult : Option LastResult` models `'correct' | 'incorrect' | null`. -/
structure RepetitionData where
  questionId : String
  easeFactor : ℚ
  interval : ℚ
  repetitions : ℚ
  nextReview : ℚ
  lastResult : Option LastResult
deriving DecidableEq, Repr

/-- JavaScript `Math.round`: round half toward positive infinity. -/
def jsRound (x : ℚ) : ℚ := ((⌊x + 1/2⌋ : ℤ) : ℚ)

/-- `updateRepetition`, the pure transition part: given the current record,
whether the answer was correct, and the current time `now` (ms), compute the
next record exactly as the source does. -/
def updateRepetition (data : RepetitionData) (isCorrect : Bool) (now : ℚ) :
    RepetitionData :=
  let d :=
    if isCorrect then
      -- Correct answer - increase interval
      { data with
        interval :=
          if data.repetitions = 0 then 1
          else if data.repetitions = 1 then 6
          else jsRound (data.interval * data.easeFactor),
        repetitions := data.repetitions + 1,
        easeFactor := max 1.3 (data.easeFactor + 0.1),
        lastResult := some .correct }
    else
      -- Incorrect - reset and lower ease factor
      { data with
        repetitions := 0,
        interval := 1,
        easeFactor := max 1.3 (data.easeFactor - 0.3),
        lastResult := some .incorrect }
  -- Set next review time
  { d with nextReview := now + d.interval * (24 * 60 * 60 * 1000) }

/-- The default record constructed by `getQuestionData` for an unseen id. -/
def defaultRecord (questionId : String) (now : ℚ) : RepetitionData :=
  { questionId := questionId
    easeFactor := 2.5
    interval := 1
    repetitions := 0
    nextReview := now
    lastResult := none }

/-- `getPriorityScore`, the pure scoring part: given the record for a question
and the current time, compute its review priority exactly as the source does. -/
def getPriorityScore (data : RepetitionData) (now : ℚ) : ℚ :=
  -- If never answered, high priority
  if data.lastResult = none then 50
  -- If incorrect, very high priority
  else if data.lastResult = some .incorrect then 100 - data.easeFactor * 10
  else
    -- Calculate days overdue
    let daysOverdue := (now - data.nextReview) / (24 * 60 * 60 * 1000)
    -- Overdue questions get higher priority
    if daysOverdue > 0 then 30 + min (daysOverdue * 5) 50
    -- Not yet due - lower priority based on ease factor
    else data.easeFactor * 5

/-- The persisted `Record<string, RepetitionData>` document, extensionally. -/
def RepMap : Type := String → Option RepetitionData

/-- The mapping with no records. -/
def emptyMap : RepMap := fun _ => none

/-- JavaScript `delete m[id]`. -/
def deleteKey (m : RepMap) (id : String) : RepMap :=
  fun k => if k = id then none else m k

/-- The stored string under the storage key, abstracted to what `JSON.parse`
does with it: it either throws (`corrupt`) or yields a mapping (`good m`). -/
inductive StoredDoc where
  | corrupt
  | good (m : RepMap)

/-- The state of `localStorage` at the storage key: reading may itself throw
(`throwing`, e.g. storage access denied), return `null` (`empty`), or return a
stored string (`holding d`). -/
inductive Cell where
  | throwing
  | empty
  | holding (d : StoredDoc)

/-- `localStorage.getItem(STORAGE_KEY)`: `Except` models the possible throw. -/
def getItem : Cell → Except Unit (Option StoredDoc)
  | .throwing => .error ()
  | .empty => .ok none
  | .holding d => .ok (some d)

/-- `JSON.parse(stored)`: `Except` models the possible throw on corrupt input. -/
def jsonParse : StoredDoc → Except Unit RepMap
  | .corrupt => .error ()
  | .good m => .ok m

/-- `getRepetitionData`: `try { const stored = getItem(KEY); return stored ?
JSON.parse(stored) : {} } catch { return {} }`. -/
def getRepetitionData (c : Cell) : RepMap :=
  match (do
      let stored ← getItem c
      match stored with
      | some d => jsonParse d
      | none => pure emptyMap : Except Unit RepMap) with
  | .ok m => m
  | .error _ => emptyMap

/-- `saveRepetitionData`: `localStorage.setItem(KEY, JSON.stringify(data))` —
the cell afterwards holds a well-formed document for the saved mapping. -/
def saveRepetitionData (m : RepMap) (_c : Cell) : Cell := .holding (.good m)

/-- `clearRepetitionForChapter`: read all, `delete data[id]` for each given id,
save all. -/
def clearRepetitionForChapter (questionIds : List String) (c : Cell) : Cell :=
  let data := getRepetitionData c
  let data' := questionIds.foldl deleteKey data
  saveRepetitionData data' c

/-- `clearAllRepetitionData`: `localStorage.removeItem(STORAGE_KEY)`. -/
def clearAllRepetitionData (_c : Cell) : Cell := .empty

/-- `getQuestionData`: the stored record if present, else the default record. -/
def getQuestionData (c : Cell) (questionId : String) (now : ℚ) : RepetitionData :=
  match getRepetitionData c questionId with
  | some d => d
  | none => defaultRecord questionId now

/-- `getQuestionData` in state-passing form: the source performs no
`setItem`, so the cell comes back unchanged. -/
def getQuestionDataS (questionId : String) (now : ℚ) (c : Cell) :
    RepetitionData × Cell :=
  (getQuestionData c questionId now, c)

/-- The result shape of `getRepetitionStats`. -/
structure RepStats where
  mastered : ℕ
  learning : ℕ
  needsReview : ℕ
  notStarted : ℕ
deriving DecidableEq, Repr

/-- The bucket `getRepetitionStats` assigns to one id, following the source's
if-chain precedence. -/
inductive Bucket where
  | mastered
  | learning
  | needsReview
  | notStarted
deriving DecidableEq, Repr

/-- Which bucket the stats if-chain puts an id into. -/
def bucketOf (allData : RepMap) (now : ℚ) (id : String) : Bucket :=
  match allData id with
  | none => .notStarted
  | some data =>
    if data.lastResult = none then .notStarted
    else if data.lastResult = some .incorrect then .needsReview
    else if 21 ≤ data.interval ∧ 3 ≤ data.repetitions then .mastered
    else if data.nextReview ≤ now then .needsReview
    else .learning

/-- One iteration of the `questionIds.forEach` loop of `getRepetitionStats`. -/
def statsStep (allData : RepMap) (now : ℚ) (s : RepStats) (id : String) : RepStats :=
  match allData id with
  | none => { s with notStarted := s.notStarted + 1 }
  | some data =>
    if data.lastResult = none then { s with notStarted := s.notStarted + 1 }
    else if data.lastResult = some .incorrect then { s with needsReview := s.needsReview + 1 }
    else if 21 ≤ data.interval ∧ 3 ≤ data.repetitions then { s with mastered := s.mastered + 1 }
    else if data.nextReview ≤ now then { s with needsReview := s.needsReview + 1 }
    else { s with learning := s.learning + 1 }

/-- `getRepetitionStats`: fold the counting loop over the given ids. -/
def getRepetitionStats (questionIds : List String) (c : Cell) (now : ℚ) : RepStats :=
  questionIds.foldl (statsStep (getRepetitionData c) now) ⟨0, 0, 0, 0⟩

/-- The due predicate shared by `getQuestionsForReview` and `getReviewCount`:
never answered, answered incorrectly, or due for review. -/
def reviewFilter (now : ℚ) (data : RepetitionData) : Bool :=
  if data.lastResult = none then true
  else if data.lastResult = some .incorrect then true
  else decide (data.nextReview ≤ now)

/-- `getQuestionsForReview` specialised to the ids it reads. -/
def getQuestionsForReview (questionIds : List String) (c : Cell) (now : ℚ) :
    List String :=
  questionIds.filter (fun id => reviewFilter now (getQuestionData c id now))

/-- `getReviewCount`. -/
def getReviewCount (questionIds : List String) (c : Cell) (now : ℚ) : ℕ :=
  (questionIds.filter (fun id => reviewFilter now (getQuestionData c id now))).length

/-- A concrete two-record store used to instantiate the store theorems. -/
def sampleMap : RepMap := fun k =>
  if k = "q1" then some (defaultRecord "q1" 7)
  else if k = "q2" then some (defaultRecord "q2" 8)
  else none

/-- A cell holding `sampleMap` as a well-formed document. -/
def sampleCell : Cell := .holding (.good sampleMap)

/-- Evaluation helper: `max` over `ℚ` with the right argument larger. -/
theorem ratMax_eq_right {a b : ℚ} (h : a ≤ b) : max a b = b := max_eq_right h

example : (updateRepetition (defaultRecord "q" 0) true 0).interval = 1 := by decide
example : (updateRepetition (defaultRecord "q" 0) false 0).easeFactor = 2.2 := by
  simp [updateRepetition, defaultRecord]
  rw [ratMax_eq_right (by norm_num)]
  norm_num

/-- After any update, `nextReview` is `now` plus the new interval in days,
converted to milliseconds. -/
theorem update_nextReview_eq (r : RepetitionData) (b : Bool) (now : ℚ) :
    (updateRepetition r b now).nextReview =
      now + (updateRepetition r b now).interval * 86400000 := by
  cases b <;> simp only [updateRepetition] <;> norm_num

/-- **C1** The update transition matches the reference SM-2 variant: on a
correct answer the interval follows the three tiers (1, 6, round(interval·ease)),
repetitions increments and ease rises by 0.1 with floor 1.3; on an incorrect
answer repetitions reset to 0, interval to 1, and ease falls by 0.3 with floor
1.3; in both cases `nextReview' = now + interval' * 86400000`. -/
theorem updateRepetition_spec (r : RepetitionData) (isCorrect : Bool) (now : ℚ) :
    (isCorrect = true →
      (r.repetitions = 0 → (updateRepetition r isCorrect now).interval = 1) ∧
      (r.repetitions = 1 → (updateRepetition r isCorrect now).interval = 6) ∧
      (r.repetitions ≥ 2 →
        (updateRepetition r isCorrect now).interval = jsRound (r.interval * r.easeFactor)) ∧
      (updateRepetition r isCorrect now).repetitions = r.repetitions + 1 ∧
      (updateRepetition r isCorrect now).easeFactor = max 1.3 (r.easeFactor + 0.1) ∧
      (updateRepetition r isCorrect now).lastResult = some .correct) ∧
    (isCorrect = false →
      (updateRepetition r isCorrect now).repetitions = 0 ∧
      (updateRepetition r isCorrect now).interval = 1 ∧
      (updateRepetition r isCorrect now).easeFactor = max 1.3 (r.easeFactor - 0.3) ∧
      (updateRepetition r isCorrect now).lastResult = some .incorrect) ∧
    (updateRepetition r isCorrect now).nextReview =
      now + (updateRepetition r isCorrect now).interval * 86400000 := by
  refine ⟨?_, ?_, update_nextReview_eq r isCorrect now⟩
  · rintro rfl
    refine ⟨?_, ?_, ?_, ?_, ?_, ?_⟩
    · intro h0; simp [updateRepetition, h0]
    · intro h1
      have h0 : ¬ r.repetitions = 0 := by rw [h1]; norm_num
      simp [updateRepetition, h0, h1]
    · intro h2
      have h0 : ¬ r.repetitions = 0 := by intro h; rw [h] at h2; norm_num at h2
      have h1 : ¬ r.repetitions = 1 := by intro h; rw [h] at h2; norm_num at h2
      simp [updateRepetition, h0, h1]
    · simp [updateRepetition]
    · simp [updateRepetition]
    · simp [updateRepetition]
  · rintro rfl
    refine ⟨?_, ?_, ?_, ?_⟩ <;> simp [updateRepetition]

/-- Witness for `updateRepetition_spec` at a concrete record, discharging each
hypothesis. -/
theorem updateRepetition_spec_witness :
    ((updateRepetition (defaultRecord "q" 0) true 5).interval = 1 ∧
     (updateRepetition (defaultRecord "q" 0) true 5).repetitions = 1 ∧
     (updateRepetition (defaultRecord "q" 0) true 5).nextReview =
       5 + (updateRepetition (defaultRecord "q" 0) true 5).interval * 86400000) ∧
    ((updateRepetition (defaultRecord "q" 0) false 5).repetitions = 0 ∧
     (updateRepetition (defaultRecord "q" 0) false 5).easeFactor = max 1.3 (2.5 - 0.3)) := by
  have hT := updateRepetition_spec (defaultRecord "q" 0) true 5
  have hF := updateRepetition_spec (defaultRecord "q" 0) false 5
  refine ⟨⟨(hT.1 rfl).1 (by decide), ?_, hT.2.2⟩, ⟨(hF.2.1 rfl).1, ?_⟩⟩
  · have := (hT.1 rfl).2.2.2.1
    simpa [defaultRecord] using this
  · have := (hF.2.1 rfl).2.2.1
    simpa [defaultRecord] using this

/-- **C2 (counterexample)** A record with `repetitions = 1`, `interval = 6`,
`easeFactor = 2.5` answered correctly gets `interval = 6` (the second SM-2 tier),
not `round(6 * 2.5) = 15` as the claim asserts: the claimed output is refuted at
this concrete input. -/
theorem updateRepetition_rep1_claim_false :
    (updateRepetition ⟨"q", 2.5, 6, 1, 0, none⟩ true 0).interval = 6 ∧
    ¬ ((updateRepetition ⟨"q", 2.5, 6, 1, 0, none⟩ true 0).repetitions = 2 ∧
       (updateRepetition ⟨"q", 2.5, 6, 1, 0, none⟩ true 0).interval = 15 ∧
       (updateRepetition ⟨"q", 2.5, 6, 1, 0, none⟩ true 0).easeFactor = 2.6 ∧
       (updateRepetition ⟨"q", 2.5, 6, 1, 0, none⟩ true 0).lastResult =
         some .correct) := by
  constructor
  · decide
  · intro h
    have h15 := h.2.1
    have h6 : (updateRepetition ⟨"q", 2.5, 6, 1, 0, none⟩ true 0).interval = 6 := by decide
    rw [h6] at h15
    norm_num at h15

/-- **C2 (amended)** Calling update with a correct answer on a record with
`repetitions = 1`, `interval = 6`, `easeFactor = 2.5` returns a record with
`repetitions = 2`, `interval = 6`, `easeFactor = 2.6`, `lastResult = correct`. -/
theorem updateRepetition_rep1_result :
    (updateRepetition ⟨"q", 2.5, 6, 1, 0, none⟩ true 0).repetitions = 2 ∧
    (updateRepetition ⟨"q", 2.5, 6, 1, 0, none⟩ true 0).interval = 6 ∧
    (updateRepetition ⟨"q", 2.5, 6, 1, 0, none⟩ true 0).easeFactor = 2.6 ∧
    (updateRepetition ⟨"q", 2.5, 6, 1, 0, none⟩ true 0).lastResult = some .correct := by
  refine ⟨?_, by decide, ?_, by decide⟩
  · simp [updateRepetition]
    norm_num
  · simp [updateRepetition]
    rw [ratMax_eq_right (by norm_num)]
    norm_num

/-- Every update leaves the ease factor at or above the 1.3 floor. -/
theorem easeFactor_update_ge_floor (r : RepetitionData) (b : Bool) (now : ℚ) :
    1.3 ≤ (updateRepetition r b now).easeFactor := by
  cases b <;> simp [updateRepetition]

/-- **C3** Ease-factor floor invariant: any record with `easeFactor ≥ 1.3`
keeps `easeFactor ≥ 1.3` after update for either outcome, and any sequence of
consecutive incorrect answers starting from the default record keeps
`easeFactor ≥ 1.3`. -/
theorem easeFactor_floor_invariant :
    (∀ (r : RepetitionData) (b : Bool) (now : ℚ), 1.3 ≤ r.easeFactor →
        1.3 ≤ (updateRepetition r b now).easeFactor) ∧
    (∀ (nows : List ℚ) (qid : String) (now₀ : ℚ),
        1.3 ≤ (nows.foldl (fun r t => updateRepetition r false t)
                (defaultRecord qid now₀)).easeFactor) := by
  have step : ∀ (nows : List ℚ) (r : RepetitionData), 1.3 ≤ r.easeFactor →
      1.3 ≤ (nows.foldl (fun r t => updateRepetition r false t) r).easeFactor := by
    intro nows
    induction nows with
    | nil => intro r h; simpa using h
    | cons t ts ih =>
      intro r _
      simpa using ih (updateRepetition r false t) (easeFactor_update_ge_floor r false t)
  refine ⟨fun r b now _ => easeFactor_update_ge_floor r b now, fun nows qid now₀ => ?_⟩
  exact step nows (defaultRecord qid now₀) (by norm_num [defaultRecord])

/-- Witness for `easeFactor_floor_invariant` at concrete inputs. -/
theorem easeFactor_floor_invariant_witness :
    1.3 ≤ (updateRepetition (defaultRecord "q" 0) false 0).easeFactor ∧
    1.3 ≤ (([0, 1] : List ℚ).foldl (fun r t => updateRepetition r false t)
            (defaultRecord "q" 0)).easeFactor :=
  ⟨easeFactor_floor_invariant.1 (defaultRecord "q" 0) false 0 (by norm_num [defaultRecord]),
   easeFactor_floor_invariant.2 [0, 1] "q" 0⟩

/-- The score of a correct-answered, overdue record: its value and its
`(30, 80]` bounds. -/
theorem overdue_score (d : RepetitionData) (now : ℚ)
    (hl : d.lastResult = some .correct)
    (hov : 0 < (now - d.nextReview) / 86400000) :
    getPriorityScore d now = 30 + min ((now - d.nextReview) / 86400000 * 5) 50 ∧
    30 < getPriorityScore d now ∧ getPriorityScore d now ≤ 80 := by
  have heq : getPriorityScore d now
      = 30 + min ((now - d.nextReview) / 86400000 * 5) 50 := by
    have hpos : 0 < now - d.nextReview := by
      by_contra h
      push_neg at h
      have : (now - d.nextReview) / (86400000 : ℚ) ≤ 0 :=
        div_nonpos_iff.mpr (Or.inr ⟨by linarith, by norm_num⟩)
      linarith
    have hlt : d.nextReview < now := by linarith
    simp only [getPriorityScore, hl]
    norm_num
    simp [hlt]
  refine ⟨heq, ?_, ?_⟩
  · rw [heq]
    have h5 : 0 < (now - d.nextReview) / 86400000 * 5 := by positivity
    have : (0 : ℚ) < min ((now - d.nextReview) / 86400000 * 5) 50 :=
      lt_min h5 (by norm_num)
    linarith
  · rw [heq]
    have : min ((now - d.nextReview) / 86400000 * 5) 50 ≤ 50 := min_le_right _ _
    linarith

/-- The score of a correct-answered record that is not yet due. -/
theorem notdue_score (d : RepetitionData) (now : ℚ)
    (hl : d.lastResult = some .correct)
    (hnr : now ≤ d.nextReview) :
    getPriorityScore d now = d.easeFactor * 5 := by
  have hnle : ¬ d.nextReview < now := by linarith
  simp only [getPriorityScore, hl]
  norm_num
  simp [hnle]

/-- **C4** The priority scorer returns 50 for an unanswered record,
`100 - easeFactor * 10` for an incorrect one, and otherwise, with
`daysOverdue = (now - nextReview) / 86400000`, `30 + min(daysOverdue * 5, 50)`
when overdue (a value in `(30, 80]`) and `easeFactor * 5` when not yet due. -/
theorem getPriorityScore_spec (d : RepetitionData) (now : ℚ) :
    (d.lastResult = none → getPriorityScore d now = 50) ∧
    (d.lastResult = some .incorrect →
      getPriorityScore d now = 100 - d.easeFactor * 10) ∧
    (d.lastResult = some .correct →
      (0 < (now - d.nextReview) / 86400000 →
        getPriorityScore d now = 30 + min ((now - d.nextReview) / 86400000 * 5) 50 ∧
        30 < getPriorityScore d now ∧ getPriorityScore d now ≤ 80) ∧
      ((now - d.nextReview) / 86400000 ≤ 0 →
        getPriorityScore d now = d.easeFactor * 5)) := by
  refine ⟨fun h => by simp [getPriorityScore, h], fun h => by simp [getPriorityScore, h],
    fun hl => ⟨fun hov => overdue_score d now hl hov, fun hnot => ?_⟩⟩
  have hnr : now ≤ d.nextReview := by
    by_contra hlt
    push_neg at hlt
    have : 0 < (now - d.nextReview) / (86400000 : ℚ) := div_pos (by linarith) (by norm_num)
    linarith
  exact notdue_score d now hl hnr

/-- Witness for `getPriorityScore_spec` at concrete records of each kind. -/
theorem getPriorityScore_spec_witness :
    getPriorityScore ⟨"a", 2.5, 1, 0, 0, none⟩ 0 = 50 ∧
    getPriorityScore ⟨"b", 2.5, 1, 0, 0, some .incorrect⟩ 0 = 100 - 2.5 * 10 ∧
    (30 < getPriorityScore ⟨"c", 2.5, 6, 1, 0, some .correct⟩ 86400000 ∧
      getPriorityScore ⟨"c", 2.5, 6, 1, 0, some .correct⟩ 86400000 ≤ 80) ∧
    getPriorityScore ⟨"d", 2.5, 6, 1, 86400000, some .correct⟩ 0 = 2.5 * 5 := by
  refine ⟨(getPriorityScore_spec _ 0).1 rfl, (getPriorityScore_spec _ 0).2.1 rfl, ?_, ?_⟩
  · exact (((getPriorityScore_spec _ 86400000).2.2 rfl).1 (by norm_num)).2
  · exact ((getPriorityScore_spec _ 0).2.2 rfl).2 (by norm_num)

/-- **C5 (counterexample)** The claimed strict three-tier ordering fails on the
code: an incorrect-answered record with `easeFactor = 2.5` (within the claim's
`easeFactor ≥ 1.3` hypothesis) scores 75, while a correct record 10 days
overdue scores 80, so `priority(incorrect) > priority(overdue)` is false; and a
correct record 1 day overdue scores 35, so `priority(overdue) > 50` is false. -/
theorem priority_ordering_claim_false :
    getPriorityScore ⟨"a", 2.5, 1, 0, 0, some .incorrect⟩ 864000000 = 75 ∧
    getPriorityScore ⟨"b", 2.5, 15, 2, 0, some .correct⟩ 864000000 = 80 ∧
    ¬ (getPriorityScore ⟨"a", 2.5, 1, 0, 0, some .incorrect⟩ 864000000 >
        getPriorityScore ⟨"b", 2.5, 15, 2, 0, some .correct⟩ 864000000) ∧
    getPriorityScore ⟨"c", 2.5, 6, 1, 0, some .correct⟩ 86400000 = 35 ∧
    ¬ (getPriorityScore ⟨"c", 2.5, 6, 1, 0, some .correct⟩ 86400000 > 50) := by
  have hI : getPriorityScore ⟨"a", 2.5, 1, 0, 0, some .incorrect⟩ 864000000 = 75 := by
    simp [getPriorityScore]
    norm_num
  have hO : getPriorityScore ⟨"b", 2.5, 15, 2, 0, some .correct⟩ 864000000 = 80 := by
    have h50 : ((864000000 : ℚ) - 0) / (24 * 60 * 60 * 1000) * 5 = 50 := by norm_num
    simp [getPriorityScore, h50]
    norm_num
  have hC : getPriorityScore ⟨"c", 2.5, 6, 1, 0, some .correct⟩ 86400000 = 35 := by
    have h5 : ((86400000 : ℚ) - 0) / (24 * 60 * 60 * 1000) * 5 = 5 := by norm_num
    simp [getPriorityScore, h5]
    rw [min_eq_left (by norm_num)]
    norm_num
  refine ⟨hI, hO, ?_, hC, ?_⟩
  · rw [hI, hO]; norm_num
  · rw [hC]; norm_num

/-- **C5 (amended)** With ease factors in the documented `[1.3, 2.5]` range,
the tiers are bounded as: incorrect scores lie in `[75, 87]`, overdue-correct
scores lie in `(30, 80]`, an unanswered record scores exactly 50, and a
not-yet-due correct record scores at most `12.5`; hence
`priority(incorrect) > 50 = priority(unset) > priority(not-due-correct)`.
(The full claimed chain fails: an overdue-correct score may exceed an
incorrect score and may fall below 50, as the counterexample shows.) -/
theorem priority_tier_bounds (now : ℚ) (r1 r2 r3 r4 : RepetitionData)
    (h1l : r1.lastResult = some .incorrect)
    (h1a : 1.3 ≤ r1.easeFactor) (h1b : r1.easeFactor ≤ 2.5)
    (h2l : r2.lastResult = some .correct) (h2n : r2.nextReview < now)
    (h3l : r3.lastResult = none)
    (h4l : r4.lastResult = some .correct) (h4n : now ≤ r4.nextReview)
    (h4b : r4.easeFactor ≤ 2.5) :
    (75 ≤ getPriorityScore r1 now ∧ getPriorityScore r1 now ≤ 87) ∧
    (30 < getPriorityScore r2 now ∧ getPriorityScore r2 now ≤ 80) ∧
    getPriorityScore r3 now = 50 ∧
    getPriorityScore r4 now ≤ 12.5 ∧
    getPriorityScore r1 now > getPriorityScore r3 now ∧
    getPriorityScore r3 now > getPriorityScore r4 now := by
  have s1 : getPriorityScore r1 now = 100 - r1.easeFactor * 10 := by
    simp [getPriorityScore, h1l]
  have s3 : getPriorityScore r3 now = 50 := by
    simp [getPriorityScore, h3l]
  have hov : 0 < (now - r2.nextReview) / (86400000 : ℚ) :=
    div_pos (by linarith) (by norm_num)
  obtain ⟨-, s2lo, s2hi⟩ := overdue_score r2 now h2l hov
  have s4 : getPriorityScore r4 now = r4.easeFactor * 5 := notdue_score r4 now h4l h4n
  refine ⟨⟨by rw [s1]; linarith, by rw [s1]; linarith⟩, ⟨s2lo, s2hi⟩, s3, ?_, ?_, ?_⟩
  · rw [s4]; linarith
  · rw [s1, s3]; linarith
  · rw [s3, s4]; linarith

/-- Witness for `priority_tier_bounds` at concrete records of all four kinds. -/
theorem priority_tier_bounds_witness :
    getPriorityScore ⟨"c", 2.5, 1, 0, 0, none⟩ 172800000 = 50 ∧
    75 ≤ getPriorityScore ⟨"a", 1.3, 1, 0, 0, some .incorrect⟩ 172800000 ∧
    getPriorityScore ⟨"c", 2.5, 1, 0, 0, none⟩ 172800000 >
      getPriorityScore ⟨"d", 2.5, 6, 1, 259200000, some .correct⟩ 172800000 := by
  have h := priority_tier_bounds 172800000
    ⟨"a", 1.3, 1, 0, 0, some .incorrect⟩
    ⟨"b", 2.5, 6, 1, 0, some .correct⟩
    ⟨"c", 2.5, 1, 0, 0, none⟩
    ⟨"d", 2.5, 6, 1, 259200000, some .correct⟩
    rfl (by norm_num) (by norm_num)
    rfl (by norm_num)
    rfl
    rfl (by norm_num) (by norm_num)
  exact ⟨h.2.2.1, h.1.1, h.2.2.2.2.2⟩

/-- The stats loop body increments exactly the bucket chosen by the if-chain. -/
theorem statsStep_bucket (m : RepMap) (now : ℚ) (s : RepStats) (id : String) :
    statsStep m now s id =
      match bucketOf m now id with
      | .mastered => { s with mastered := s.mastered + 1 }
      | .learning => { s with learning := s.learning + 1 }
      | .needsReview => { s with needsReview := s.needsReview + 1 }
      | .notStarted => { s with notStarted := s.notStarted + 1 } := by
  simp only [statsStep, bucketOf]
  cases h : m id
  · rfl
  · dsimp only
    split_ifs <;> rfl

/-- Folding the stats loop adds, to each field of the accumulator, the number
of ids assigned to the corresponding bucket. -/
theorem stats_foldl_counts (m : RepMap) (now : ℚ) :
    ∀ (ids : List String) (s : RepStats),
      (ids.foldl (statsStep m now) s).mastered
        = s.mastered + ids.countP (fun id => decide (bucketOf m now id = .mastered)) ∧
      (ids.foldl (statsStep m now) s).learning
        = s.learning + ids.countP (fun id => decide (bucketOf m now id = .learning)) ∧
      (ids.foldl (statsStep m now) s).needsReview
        = s.needsReview + ids.countP (fun id => decide (bucketOf m now id = .needsReview)) ∧
      (ids.foldl (statsStep m now) s).notStarted
        = s.notStarted + ids.countP (fun id => decide (bucketOf m now id = .notStarted)) := by
  intro ids
  induction ids with
  | nil => intro s; simp
  | cons a t ih =>
    intro s
    have hstep := statsStep_bucket m now s a
    cases hb : bucketOf m now a
    all_goals simp only [hb] at hstep
    all_goals simp only [List.foldl_cons, hstep]
    · obtain ⟨hm, hl, hn, hs⟩ := ih { s with mastered := s.mastered + 1 }
      refine ⟨?_, ?_, ?_, ?_⟩ <;> simp [hm, hl, hn, hs, List.countP_cons, hb] <;> omega
    · obtain ⟨hm, hl, hn, hs⟩ := ih { s with learning := s.learning + 1 }
      refine ⟨?_, ?_, ?_, ?_⟩ <;> simp [hm, hl, hn, hs, List.countP_cons, hb] <;> omega
    · obtain ⟨hm, hl, hn, hs⟩ := ih { s with needsReview := s.needsReview + 1 }
      refine ⟨?_, ?_, ?_, ?_⟩ <;> simp [hm, hl, hn, hs, List.countP_cons, hb] <;> omega
    · obtain ⟨hm, hl, hn, hs⟩ := ih { s with notStarted := s.notStarted + 1 }
      refine ⟨?_, ?_, ?_, ?_⟩ <;> simp [hm, hl, hn, hs, List.countP_cons, hb] <;> omega

/-- **C6** `getRepetitionStats` assigns every id to exactly one of the four
buckets by the source's precedence rules (`bucketOf`): each field counts the
ids assigned to that bucket, and the four counts sum to the number of ids. -/
theorem getRepetitionStats_partition (ids : List String) (c : Cell) (now : ℚ) :
    (getRepetitionStats ids c now).mastered
      = ids.countP (fun id => decide (bucketOf (getRepetitionData c) now id = .mastered)) ∧
    (getRepetitionStats ids c now).learning
      = ids.countP (fun id => decide (bucketOf (getRepetitionData c) now id = .learning)) ∧
    (getRepetitionStats ids c now).needsReview
      = ids.countP (fun id => decide (bucketOf (getRepetitionData c) now id = .needsReview)) ∧
    (getRepetitionStats ids c now).notStarted
      = ids.countP (fun id => decide (bucketOf (getRepetitionData c) now id = .notStarted)) ∧
    (getRepetitionStats ids c now).mastered + (getRepetitionStats ids c now).learning +
      (getRepetitionStats ids c now).needsReview + (getRepetitionStats ids c now).notStarted
      = ids.length := by
  obtain ⟨hm, hl, hn, hs⟩ := stats_foldl_counts (getRepetitionData c) now ids ⟨0, 0, 0, 0⟩
  have hcover : ∀ id, (decide (bucketOf (getRepetitionData c) now id = .mastered)).toNat +
      (decide (bucketOf (getRepetitionData c) now id = .learning)).toNat +
      (decide (bucketOf (getRepetitionData c) now id = .needsReview)).toNat +
      (decide (bucketOf (getRepetitionData c) now id = .notStarted)).toNat = 1 := by
    intro id
    cases bucketOf (getRepetitionData c) now id <;> simp
  have hsum : ∀ t : List String,
      t.countP (fun id => decide (bucketOf (getRepetitionData c) now id = .mastered)) +
      t.countP (fun id => decide (bucketOf (getRepetitionData c) now id = .learning)) +
      t.countP (fun id => decide (bucketOf (getRepetitionData c) now id = .needsReview)) +
      t.countP (fun id => decide (bucketOf (getRepetitionData c) now id = .notStarted))
      = t.length := by
    intro t
    induction t with
    | nil => simp
    | cons a t iht =>
      have := hcover a
      simp only [List.countP_cons, List.length_cons]
      cases bucketOf (getRepetitionData c) now a <;> simp_all <;> omega
  refine ⟨?_, ?_, ?_, ?_, ?_⟩
  · simpa [getRepetitionStats] using hm
  · simpa [getRepetitionStats] using hl
  · simpa [getRepetitionStats] using hn
  · simpa [getRepetitionStats] using hs
  · have h0m : (getRepetitionStats ids c now).mastered
        = ids.countP (fun id => decide (bucketOf (getRepetitionData c) now id = .mastered)) := by
      simpa [getRepetitionStats] using hm
    have h0l : (getRepetitionStats ids c now).learning
        = ids.countP (fun id => decide (bucketOf (getRepetitionData c) now id = .learning)) := by
      simpa [getRepetitionStats] using hl
    have h0n : (getRepetitionStats ids c now).needsReview
        = ids.countP (fun id => decide (bucketOf (getRepetitionData c) now id = .needsReview)) := by
      simpa [getRepetitionStats] using hn
    have h0s : (getRepetitionStats ids c now).notStarted
        = ids.countP (fun id => decide (bucketOf (getRepetitionData c) now id = .notStarted)) := by
      simpa [getRepetitionStats] using hs
    rw [h0m, h0l, h0n, h0s]
    exact hsum ids

/-- **C7** `getOne` returns the stored record when present, else a fresh
default record (`easeFactor = 2.5`, `interval = 1`, `repetitions = 0`,
`nextReview = now`, `lastResult = unset`); it never writes to the store, and
two calls with no intervening update return equal records. -/
theorem getQuestionData_spec (c : Cell) (qid : String) (now : ℚ) :
    (∀ r, getRepetitionData c qid = some r → (getQuestionDataS qid now c).1 = r) ∧
    (getRepetitionData c qid = none →
      (getQuestionDataS qid now c).1 = defaultRecord qid now ∧
      (getQuestionDataS qid now c).1.easeFactor = 2.5 ∧
      (getQuestionDataS qid now c).1.interval = 1 ∧
      (getQuestionDataS qid now c).1.repetitions = 0 ∧
      (getQuestionDataS qid now c).1.nextReview = now ∧
      (getQuestionDataS qid now c).1.lastResult = none) ∧
    (getQuestionDataS qid now c).2 = c ∧
    (getQuestionDataS qid now ((getQuestionDataS qid now c).2)).1
      = (getQuestionDataS qid now c).1 := by
  refine ⟨fun r h => ?_, fun h => ?_, rfl, rfl⟩
  · simp [getQuestionDataS, getQuestionData, h]
  · simp [getQuestionDataS, getQuestionData, h, defaultRecord]

/-- Witness for `getQuestionData_spec`: a stored record is returned as is; a
missing record yields the default; the cell is unchanged. -/
theorem getQuestionData_spec_witness :
    (getQuestionDataS "q1" 3 sampleCell).1 = defaultRecord "q1" 7 ∧
    (getQuestionDataS "q9" 3 sampleCell).1 = defaultRecord "q9" 3 ∧
    (getQuestionDataS "q1" 3 sampleCell).2 = sampleCell := by
  refine ⟨(getQuestionData_spec sampleCell "q1" 3).1 _ ?_,
    ((getQuestionData_spec sampleCell "q9" 3).2.1 ?_).1,
    (getQuestionData_spec sampleCell "q1" 3).2.2.1⟩
  · show sampleMap "q1" = some (defaultRecord "q1" 7)
    simp [sampleMap]
  · show sampleMap "q9" = none
    simp [sampleMap]

/-- Deleting a list of keys in a fold removes exactly those keys. -/
theorem foldl_deleteKey (ids : List String) :
    ∀ (m : RepMap) (k : String),
      (ids.foldl deleteKey m) k = if k ∈ ids then none else m k := by
  induction ids with
  | nil => intro m k; simp
  | cons a t ih =>
    intro m k
    simp only [List.foldl_cons]
    rw [ih]
    by_cases hk : k = a
    · subst hk
      by_cases ht : k ∈ t <;> simp [deleteKey, ht]
    · by_cases ht : k ∈ t <;> simp [deleteKey, hk, ht, List.mem_cons]

/-- **C8** `deleteMany` removes exactly the records for the listed ids: a
listed id has no record afterwards and `getOne` on it returns the fresh
default; an unlisted id keeps exactly the record it had (so deleting an id
with no record is harmless). -/
theorem clearRepetitionForChapter_spec (c : Cell) (ids : List String)
    (qid : String) (now : ℚ) :
    (qid ∈ ids →
      getRepetitionData (clearRepetitionForChapter ids c) qid = none ∧
      getQuestionData (clearRepetitionForChapter ids c) qid now
        = defaultRecord qid now) ∧
    (qid ∉ ids →
      getRepetitionData (clearRepetitionForChapter ids c) qid
        = getRepetitionData c qid) := by
  have hread : getRepetitionData (clearRepetitionForChapter ids c) qid
      = (ids.foldl deleteKey (getRepetitionData c)) qid := rfl
  constructor
  · intro hmem
    have hnone : getRepetitionData (clearRepetitionForChapter ids c) qid = none := by
      rw [hread, foldl_deleteKey, if_pos hmem]
    exact ⟨hnone, by simp [getQuestionData, hnone]⟩
  · intro hnm
    rw [hread, foldl_deleteKey, if_neg hnm]

/-- Witness for `clearRepetitionForChapter_spec`: deleting `q1` from the
sample store empties its record, makes `getOne` return the default, and leaves
`q2`'s record untouched. -/
theorem clearRepetitionForChapter_spec_witness :
    getRepetitionData (clearRepetitionForChapter ["q1"] sampleCell) "q1" = none ∧
    getQuestionData (clearRepetitionForChapter ["q1"] sampleCell) "q1" 3
      = defaultRecord "q1" 3 ∧
    getRepetitionData (clearRepetitionForChapter ["q1"] sampleCell) "q2"
      = getRepetitionData sampleCell "q2" := by
  refine ⟨((clearRepetitionForChapter_spec sampleCell ["q1"] "q1" 3).1 ?_).1,
    ((clearRepetitionForChapter_spec sampleCell ["q1"] "q1" 3).1 ?_).2,
    (clearRepetitionForChapter_spec sampleCell ["q1"] "q2" 3).2 ?_⟩
  · simp
  · simp
  · simp

/-- **C9** `loadAll` never fails: it returns the empty mapping when storage
reads throw, when nothing is stored, and when the stored document does not
parse, and returns the stored mapping when it does parse. -/
theorem getRepetitionData_never_fails :
    getRepetitionData .throwing = emptyMap ∧
    getRepetitionData .empty = emptyMap ∧
    getRepetitionData (.holding .corrupt) = emptyMap ∧
    ∀ m : RepMap, getRepetitionData (.holding (.good m)) = m :=
  ⟨rfl, rfl, rfl, fun _ => rfl⟩

/-- **C10 (counterexample)** The claim's hypothesis `interval ≥ 0` is too weak:
a correct-answered record with `interval = 0`, `repetitions = 2`,
`easeFactor = 1.3` satisfies it, yet update yields
`interval' = round(0 * 1.3) = 0` and `nextReview' = now`, so `nextReview` is
not in the future and the record still passes the due filter at `now`. -/
theorem update_future_claim_false :
    (0 : ℚ) ≤ (⟨"q", 1.3, 0, 2, 0, some .correct⟩ : RepetitionData).interval ∧
    1.3 ≤ (⟨"q", 1.3, 0, 2, 0, some .correct⟩ : RepetitionData).easeFactor ∧
    (updateRepetition ⟨"q", 1.3, 0, 2, 0, some .correct⟩ true 0).interval = 0 ∧
    (updateRepetition ⟨"q", 1.3, 0, 2, 0, some .correct⟩ true 0).nextReview = 0 ∧
    ¬ (1 ≤ (updateRepetition ⟨"q", 1.3, 0, 2, 0, some .correct⟩ true 0).interval) ∧
    ¬ ((0 : ℚ) + 86400000 ≤
        (updateRepetition ⟨"q", 1.3, 0, 2, 0, some .correct⟩ true 0).nextReview) ∧
    reviewFilter 0 (updateRepetition ⟨"q", 1.3, 0, 2, 0, some .correct⟩ true 0)
      = true := by
  have hj : jsRound (0 : ℚ) = 0 := by
    have hf : ⌊(1/2 : ℚ)⌋ = 0 := by
      rw [Int.floor_eq_zero_iff]
      constructor <;> norm_num
    simp only [jsRound]
    norm_num [hf]
  have h0 : ¬ ((2 : ℚ) = 0) := by norm_num
  have h1 : ¬ ((2 : ℚ) = 1) := by norm_num
  have hint : (updateRepetition ⟨"q", 1.3, 0, 2, 0, some .correct⟩ true 0).interval = 0 := by
    simp [updateRepetition, h0, h1, hj]
  have hnr : (updateRepetition ⟨"q", 1.3, 0, 2, 0, some .correct⟩ true 0).nextReview = 0 := by
    simp [updateRepetition, h0, h1, hj]
  have hlast : (updateRepetition ⟨"q", 1.3, 0, 2, 0, some .correct⟩ true 0).lastResult
      = some .correct := by
    simp [updateRepetition]
  refine ⟨by norm_num, by norm_num, hint, hnr, ?_, ?_, ?_⟩
  · rw [hint]; norm_num
  · rw [hnr]; norm_num
  · simp [reviewFilter, hlast, hnr]

/-- **C10 (amended)** For every record with `interval ≥ 1` and
`easeFactor ≥ 1.3` and every outcome, the updated record has `interval ≥ 1`
and `nextReview ≥ now + 86400000` (at least one day in the future); hence a
correctly-answered record does not pass the due filter of
`getQuestionsForReview`/`getReviewCount` at the moment of the update. -/
theorem update_nextReview_future (r : RepetitionData) (b : Bool) (now : ℚ)
    (hi : 1 ≤ r.interval) (he : 1.3 ≤ r.easeFactor) :
    1 ≤ (updateRepetition r b now).interval ∧
    now + 86400000 ≤ (updateRepetition r b now).nextReview ∧
    (b = true → reviewFilter now (updateRepetition r b now) = false) := by
  have hint : 1 ≤ (updateRepetition r b now).interval := by
    cases b
    · simp [updateRepetition]
    · by_cases h0 : r.repetitions = 0
      · simp [updateRepetition, h0]
      · by_cases h1 : r.repetitions = 1
        · simp [updateRepetition, h0, h1]
        · have hx : (1.3 : ℚ) ≤ r.interval * r.easeFactor := by
            calc (1.3 : ℚ) = 1 * 1.3 := by norm_num
            _ ≤ r.interval * r.easeFactor := mul_le_mul hi he (by norm_num) (by linarith)
          have hZ : (1 : ℤ) ≤ ⌊r.interval * r.easeFactor + 1/2⌋ := by
            rw [Int.le_floor]
            push_cast
            linarith
          have hQ : (1 : ℚ) ≤ jsRound (r.interval * r.easeFactor) := by
            simp only [jsRound]
            exact_mod_cast hZ
          simp [updateRepetition, h0, h1, hQ]
  have hnr : now + 86400000 ≤ (updateRepetition r b now).nextReview := by
    rw [update_nextReview_eq r b now]
    have hmul : (1 : ℚ) * 86400000 ≤ (updateRepetition r b now).interval * 86400000 :=
      mul_le_mul_of_nonneg_right hint (by norm_num)
    linarith
  refine ⟨hint, hnr, fun hb => ?_⟩
  subst hb
  have hlast : (updateRepetition r true now).lastResult = some .correct := by
    simp [updateRepetition]
  have hnle : ¬ ((updateRepetition r true now).nextReview ≤ now) := by linarith
  simp [reviewFilter, hlast, hnle]

/-- Witness for `update_nextReview_future` at the default record. -/
theorem update_nextReview_future_witness :
    1 ≤ (updateRepetition (defaultRecord "q" 0) true 0).interval ∧
    (0 : ℚ) + 86400000 ≤ (updateRepetition (defaultRecord "q" 0) true 0).nextReview ∧
    reviewFilter 0 (updateRepetition (defaultRecord "q" 0) true 0) = false := by
  have h := update_nextReview_future (defaultRecord "q" 0) true 0
    (by norm_num [defaultRecord]) (by norm_num [defaultRecord])
  exact ⟨h.1, h.2.1, h.2.2 rfl⟩
